import Mathlib

/-!
# Verification of the grid-compositing and coordinate-mapping subsystem

Shallow embedding of `src/core/grid_utils.py` and the frame/time mapper of
`src/core/video.py` (Day-Go/muoviti), together with proofs of the spec's
testable properties.

Modelling conventions:
* An in-memory raster (`PIL.Image`) is an `Img`: width, height and a total
  pixel function `Nat → Nat → Nat` (the `Nat` value is an abstract colour
  code; `0` stands for the transparent RGBA fill `(0,0,0,0)`, `1` for the
  opaque white RGB fill `(255,255,255)`).
* PIL's resampling resize (`Image.resize` with `LANCZOS`) and colour-model
  conversion (`Image.convert("RGB")`) are external-library operations, not
  code of this repository; they enter the embedding as function parameters.
  The only fact the code relies on is PIL's contract that
  `im.resize((w, h))` returns an image of exactly width `w` and height `h`;
  theorems take that contract as a hypothesis (`ResizeSpec`).
* File I/O (`Image.open`, `save`, `mkdir`) is abstracted away: frame paths
  become the `Img` values they decode to, and `slice_grid` returns the list
  of cell images instead of the list of written paths.
* Python `int` is `Int` where negative values are reachable
  (`calculate_sprite_size`, the time mapper) and `Nat` where the quantity
  is a pixel dimension or index.  Python float arithmetic in the time
  mapper is idealised as exact rational arithmetic (`ℚ`).
* A Python function that can raise returns `Except PyErr _`; a function
  whose body cannot raise is total.
-/

/-- Python exceptions reachable in the embedded code. -/
inductive PyErr where
  | valueError : PyErr
  | zeroDivisionError : PyErr
deriving DecidableEq, Repr

/-- An in-memory raster: width, height, and a pixel lookup (abstract colour
codes as `Nat`).  Pixel values outside the `width × height` rectangle are
irrelevant; operations read only in-bounds pixels. -/
structure Img where
  width : Nat
  height : Nat
  pix : Nat → Nat → Nat

/-- `PIL.Image.new(mode, (w, h), fill)`: a fresh `w × h` canvas filled with
the colour `fill`. -/
def Img.new (w h fill : Nat) : Img :=
  ⟨w, h, fun _ _ => fill⟩

/-- `canvas.paste(im, (x, y))`: opaque overwrite of the rectangle of `im`'s
size at offset `(x, y)`, clipped to the canvas bounds; other pixels keep the
canvas value.  Canvas dimensions are unchanged. -/
def Img.paste (canvas im : Img) (x y : Nat) : Img :=
  { canvas with
    pix := fun i j =>
      if x ≤ i ∧ i < x + im.width ∧ y ≤ j ∧ j < y + im.height ∧
          i < canvas.width ∧ j < canvas.height then
        im.pix (i - x) (j - y)
      else canvas.pix i j }

/-- `im.crop((left, upper, right, lower))`: a `(right-left) × (lower-upper)`
image whose pixel `(i, j)` is the source pixel `(left+i, upper+j)`, with
PIL's zero fill where the crop box leaves the source. -/
def Img.crop (im : Img) (left upper right lower : Nat) : Img :=
  ⟨right - left, lower - upper, fun i j =>
    if left + i < im.width ∧ upper + j < im.height ∧
        i < right - left ∧ j < lower - upper then
      im.pix (left + i) (upper + j)
    else 0⟩

/-- `calculate_sprite_size(resolution, cols, rows)` from
`src/core/grid_utils.py`: `resolution // max(cols, rows)` with Python's
floor division (`Int.fdiv`), raising `ZeroDivisionError` when the divisor
is zero.  The function performs no validation of `cols`/`rows`. -/
def calculate_sprite_size (resolution cols rows : Int) : Except PyErr Int :=
  if max cols rows = 0 then .error .zeroDivisionError
  else .ok (Int.fdiv resolution (max cols rows))

/-- `calculate_grid_resolution(sprite_size, cols, rows)` from
`src/core/grid_utils.py`. -/
def calculate_grid_resolution (sprite_size cols rows : Int) : Int × Int :=
  (sprite_size * cols, sprite_size * rows)

/-- `slice_grid(image_path, cols, rows, output_dir)` from
`src/core/grid_utils.py`: split a sheet into `rows*cols` cell crops of size
`width // cols × height // rows`, row-major (outer loop over rows, inner
over cols).  The decoded sheet stands in for its path and the returned
images for the written frame paths. -/
def slice_grid (img : Img) (cols rows : Nat) : List Img :=
  let cell_width := img.width / cols
  let cell_height := img.height / rows
  (List.range rows).flatMap fun row =>
    (List.range cols).map fun col =>
      img.crop (col * cell_width) (row * cell_height)
        (col * cell_width + cell_width) (row * cell_height + cell_height)

/-- The shared enumeration loop of `compose_grid` and
`create_reference_grid`: `for idx, frame_path in enumerate(frames)` with the
`if idx >= cols * rows: break` guard, pasting the normalised frame
(`norm frame`) at `((idx % cols) * cell, (idx // cols) * cell)`. -/
def paste_loop (norm : Img → Img) (cols rows cell : Nat) :
    Nat → List Img → Img → Img
  | _, [], g => g
  | idx, f :: rest, g =>
    if cols * rows ≤ idx then g
    else
      paste_loop norm cols rows cell (idx + 1) rest
        (g.paste (norm f) ((idx % cols) * cell) ((idx / cols) * cell))

/-- `compose_grid(frames, cols, rows, sprite_size)` from
`src/core/grid_utils.py` (sheet mode): a fresh transparent
`cols*sprite_size × rows*sprite_size` RGBA canvas, each frame resized to
`sprite_size × sprite_size` and pasted row-major; frames beyond
`cols*rows` are skipped by the `break`.  `resize` is PIL's resampling
resize, passed in as a parameter. -/
def compose_grid (resize : Img → Nat → Nat → Img) (frames : List Img)
    (cols rows sprite_size : Nat) : Img :=
  let grid_width := cols * sprite_size
  let grid_height := rows * sprite_size
  let grid := Img.new grid_width grid_height 0
  paste_loop (fun f => resize f sprite_size sprite_size) cols rows
    sprite_size 0 frames grid

/-- `center_crop_square(image)` from `src/core/grid_utils.py`: crop to the
centred square of side `min(width, height)`. -/
def center_crop_square (image : Img) : Img :=
  let size := min image.width image.height
  let left := (image.width - size) / 2
  let top := (image.height - size) / 2
  image.crop left top (left + size) (top + size)

/-- `create_reference_grid(frames, cols, rows, resolution)` from
`src/core/grid_utils.py` (reference mode): raises `ValueError` on an empty
frame list, otherwise builds a white square canvas of side
`cell_size * max(cols, rows)` with `cell_size = resolution // max(cols,
rows)` and pastes each frame converted to RGB, centre-cropped square and
resized to `cell_size × cell_size`, row-major with the same `break` guard.
`convert` (PIL `Image.convert("RGB")`) and `resize` are parameters. -/
def create_reference_grid (convert : Img → Img)
    (resize : Img → Nat → Nat → Img) (frames : List Img)
    (cols rows resolution : Nat) : Except PyErr Img :=
  if frames.isEmpty then .error .valueError
  else
    let cell_size := resolution / max cols rows
    let grid_size := cell_size * max cols rows
    let grid := Img.new grid_size grid_size 1
    .ok (paste_loop
      (fun f => resize (center_crop_square (convert f)) cell_size cell_size)
      cols rows cell_size 0 frames grid)

/-- Python's `int(x)` on a number: truncation toward zero; on a rational in
lowest terms this is the truncating integer division of numerator by
denominator. -/
def py_int (q : ℚ) : Int :=
  Int.tdiv q.num (q.den : Int)

/-- `VideoHandler.time_to_frame(time_sec, fps)` from `src/core/video.py`:
`int(time_sec * fps)`.  No validation of `fps`; never raises. -/
def time_to_frame (time_sec fps : ℚ) : Int :=
  py_int (time_sec * fps)

/-- `VideoHandler.frame_to_time(frame_num, fps)` from `src/core/video.py`:
`frame_num / fps`, raising `ZeroDivisionError` when `fps = 0`.  No other
validation of `fps`. -/
def frame_to_time (frame_num : Int) (fps : ℚ) : Except PyErr ℚ :=
  if fps = 0 then .error .zeroDivisionError
  else .ok ((frame_num : ℚ) / fps)

/-- PIL's dimension contract for `Image.resize`: the result has exactly the
requested width and height. -/
def ResizeSpec (resize : Img → Nat → Nat → Img) : Prop :=
  ∀ im w h, (resize im w h).width = w ∧ (resize im w h).height = h

/-- A concrete resize satisfying `ResizeSpec`, used to instantiate
witnesses: reinterpret the source pixels at the new dimensions. -/
def idResize (im : Img) (w h : Nat) : Img :=
  ⟨w, h, im.pix⟩

theorem idResize_spec : ResizeSpec idResize := by
  intro im w h; exact ⟨rfl, rfl⟩

/-! ## Helper lemmas -/

theorem paste_loop_dims (norm : Img → Img) (cols rows cell : Nat) :
    ∀ (l : List Img) (k : Nat) (g : Img),
      (paste_loop norm cols rows cell k l g).width = g.width ∧
      (paste_loop norm cols rows cell k l g).height = g.height := by
  intro l
  induction l with
  | nil => intro k g; exact ⟨rfl, rfl⟩
  | cons a rest ih =>
    intro k g
    rw [paste_loop]
    split
    · exact ⟨rfl, rfl⟩
    · exact ih (k + 1) (g.paste (norm a) ((k % cols) * cell) ((k / cols) * cell))

theorem length_range_flatMap_map {α : Type} (rows cols : Nat) (f : Nat → Nat → α) :
    ((List.range rows).flatMap fun r => (List.range cols).map (f r)).length
      = rows * cols := by
  induction rows with
  | zero => simp
  | succ n ih =>
    rw [List.range_succ, List.flatMap_append]
    simp [ih, Nat.succ_mul]

theorem py_int_eq_floor (q : ℚ) (hq : 0 ≤ q) : py_int q = ⌊q⌋ := by
  rw [Rat.floor_def]
  exact Int.tdiv_eq_ediv (Rat.num_nonneg.2 hq) (Int.natCast_nonneg q.den)

/-! ## Claims -/

/-- C3: for all `cols, rows ≥ 1` and `resolution > 0`, the cell size
`c = calculate_sprite_size resolution cols rows` satisfies
`c * max cols rows ≤ resolution < (c + 1) * max cols rows`. -/
theorem calculate_sprite_size_bounds (resolution cols rows c : Int)
    (hc : 1 ≤ cols) (hr : 1 ≤ rows) (hres : 0 < resolution)
    (h : calculate_sprite_size resolution cols rows = .ok c) :
    c * max cols rows ≤ resolution ∧ resolution < (c + 1) * max cols rows := by
  have hm : (1 : Int) ≤ max cols rows := le_trans hc (le_max_left _ _)
  have hm0 : max cols rows ≠ 0 := by omega
  rw [calculate_sprite_size, if_neg hm0] at h
  have hceq : c = Int.fdiv resolution (max cols rows) := by
    injection h with h; omega
  rw [Int.fdiv_eq_ediv resolution (show (0:Int) ≤ max cols rows by omega)] at hceq
  have hdm := Int.ediv_add_emod resolution (max cols rows)
  have hmn := Int.emod_nonneg resolution hm0
  have hml := Int.emod_lt_of_pos resolution (show (0:Int) < max cols rows by omega)
  have hcm : c * max cols rows = max cols rows * (resolution / max cols rows) := by
    rw [hceq]; ring
  constructor
  · omega
  · have : (c + 1) * max cols rows = max cols rows * (resolution / max cols rows) + max cols rows := by
      rw [hceq]; ring
    omega

theorem calculate_sprite_size_bounds_witness :
    (1 : Int) ≤ 2 ∧ (1 : Int) ≤ 1 ∧ (0 : Int) < 1024 ∧
    (512 : Int) * max 2 1 ≤ 1024 ∧ (1024 : Int) < (512 + 1) * max 2 1 := by
  have h := calculate_sprite_size_bounds 1024 2 1 512 (by decide) (by decide)
    (by decide) rfl
  exact ⟨by decide, by decide, by decide, h.1, h.2⟩

/-- C7 counterexample: `calculate_sprite_size` performs no grid validation:
with `cols = 0 < 1` it still succeeds (`100 // max(0, 5) = 20`) instead of
failing with any error. -/
theorem calculate_sprite_size_no_validation :
    calculate_sprite_size 100 0 5 = .ok 20 := rfl

/-- C7 (amended): `calculate_sprite_size` never validates `cols`/`rows`;
for `cols, rows ≥ 1` it returns `resolution // max(cols, rows)` (Python
floor division) with no error, in particular for a resolution not divisible
by `max(cols, rows)`. -/
theorem calculate_sprite_size_ok (resolution cols rows : Int)
    (hc : 1 ≤ cols) (hr : 1 ≤ rows) :
    calculate_sprite_size resolution cols rows
      = .ok (Int.fdiv resolution (max cols rows)) := by
  have hm : (1 : Int) ≤ max cols rows := le_trans hc (le_max_left _ _)
  rw [calculate_sprite_size, if_neg (by omega)]

theorem calculate_sprite_size_ok_witness :
    (1 : Int) ≤ 3 ∧ (1 : Int) ≤ 2 ∧
    calculate_sprite_size 1000 3 2 = .ok (Int.fdiv 1000 (max 3 2)) :=
  ⟨by decide, by decide, calculate_sprite_size_ok 1000 3 2 (by decide) (by decide)⟩

/-- C9: for an image of positive width `w` and height `h`,
`center_crop_square` returns a square of side `min w h` whose pixel
`(i, j)` is the source pixel at horizontal offset `(w - side)/2` and
vertical offset `(h - side)/2`. -/
theorem center_crop_square_spec (image : Img)
    (hw : 0 < image.width) (hh : 0 < image.height) :
    (center_crop_square image).width = min image.width image.height ∧
    (center_crop_square image).height = min image.width image.height ∧
    ∀ i j, i < min image.width image.height →
      j < min image.width image.height →
      (center_crop_square image).pix i j =
        image.pix ((image.width - min image.width image.height) / 2 + i)
          ((image.height - min image.width image.height) / 2 + j) := by
  have hsw : min image.width image.height ≤ image.width := min_le_left _ _
  have hsh : min image.width image.height ≤ image.height := min_le_right _ _
  have hdw : (image.width - min image.width image.height) / 2
      ≤ image.width - min image.width image.height := Nat.div_le_self _ _
  have hdh : (image.height - min image.width image.height) / 2
      ≤ image.height - min image.width image.height := Nat.div_le_self _ _
  refine ⟨by simp [center_crop_square, Img.crop],
    by simp [center_crop_square, Img.crop], ?_⟩
  intro i j hi hj
  simp only [center_crop_square, Img.crop]
  rw [if_pos]
  omega

/-- A concrete 1920×1080 test frame. -/
def hdFrame : Img :=
  ⟨1920, 1080, fun i j => i + 1920 * j⟩

theorem center_crop_square_spec_witness :
    (center_crop_square hdFrame).width = 1080 ∧
    (center_crop_square hdFrame).height = 1080 ∧
    (center_crop_square hdFrame).pix 5 7 = hdFrame.pix (420 + 5) (0 + 7) := by
  obtain ⟨h1, h2, h3⟩ := center_crop_square_spec hdFrame
    (by decide) (by decide)
  refine ⟨?_, ?_, ?_⟩
  · simpa using h1
  · simpa using h2
  · have := h3 5 7 (by simp [hdFrame]) (by simp [hdFrame])
    simpa [hdFrame] using this

/-- C10: for every image and every `cols, rows ≥ 1`, `slice_grid` returns
exactly `cols * rows` cells, each of width `width // cols` and height
`height // rows` — including zero-extent cells when the image is narrower
than the grid; no error is possible. -/
theorem slice_grid_spec (img : Img) (cols rows : Nat)
    (hc : 1 ≤ cols) (hr : 1 ≤ rows) :
    (slice_grid img cols rows).length = cols * rows ∧
    ∀ cell ∈ slice_grid img cols rows,
      cell.width = img.width / cols ∧ cell.height = img.height / rows := by
  constructor
  · rw [slice_grid, length_range_flatMap_map, Nat.mul_comm]
  · intro cell hcell
    simp only [slice_grid, List.mem_flatMap, List.mem_map,
      List.mem_range] at hcell
    obtain ⟨row, _, col, _, rfl⟩ := hcell
    constructor
    · simp [Img.crop]
    · simp [Img.crop]

theorem slice_grid_spec_witness :
    (slice_grid (Img.new 1 3 0) 2 2).length = 2 * 2 ∧
    ∀ cell ∈ slice_grid (Img.new 1 3 0) 2 2,
      cell.width = (Img.new 1 3 0).width / 2 ∧
      cell.height = (Img.new 1 3 0).height / 2 :=
  slice_grid_spec (Img.new 1 3 0) 2 2 (by decide) (by decide)

/-- C4 counterexample: sheet mode does not fail on an empty frame sequence:
`compose_grid` with zero frames succeeds and returns the bare transparent
canvas. -/
theorem compose_grid_empty_no_error :
    compose_grid idResize [] 2 2 512 = Img.new 1024 1024 0 := rfl

/-- C4 (amended): only reference mode (`create_reference_grid`) fails
(with `ValueError`, the spec's `EmptyInputError`) on an empty frame
sequence; sheet mode (`compose_grid`) performs no such check and returns
the background-only canvas. -/
theorem compose_empty_input (convert : Img → Img)
    (resize : Img → Nat → Nat → Img) (cols rows resolution sprite_size : Nat) :
    create_reference_grid convert resize [] cols rows resolution
      = .error .valueError ∧
    compose_grid resize [] cols rows sprite_size
      = Img.new (cols * sprite_size) (rows * sprite_size) 0 :=
  ⟨rfl, rfl⟩

/-- C2 counterexample: at `cols = 2`, `rows = 1`, `resolution = 1024`
(cell size `512`), the sheet-mode composite is `1024 × 512` — not a square
of side `cellSize * max(cols, rows) = 1024`. -/
theorem compose_grid_not_square :
    ¬ ((compose_grid idResize [Img.new 4 4 2] 2 1 512).width
          = (1024 / max 2 1) * max 2 1 ∧
        (compose_grid idResize [Img.new 4 4 2] 2 1 512).height
          = (1024 / max 2 1) * max 2 1) := by
  intro h
  exact absurd h.2 (by decide)

/-- C2 (amended): the reference-mode composite is a square of side
`cellSize * max(cols, rows)` with `cellSize = resolution // max(cols,
rows)`; the sheet-mode composite is `cols * sprite_size` wide and
`rows * sprite_size` tall (square only when `cols = rows`). -/
theorem compose_dimensions (convert : Img → Img)
    (resize : Img → Nat → Nat → Img) (frames : List Img)
    (cols rows resolution sprite_size : Nat) :
    (compose_grid resize frames cols rows sprite_size).width
      = cols * sprite_size ∧
    (compose_grid resize frames cols rows sprite_size).height
      = rows * sprite_size ∧
    ∀ g, create_reference_grid convert resize frames cols rows resolution
        = .ok g →
      g.width = (resolution / max cols rows) * max cols rows ∧
      g.height = (resolution / max cols rows) * max cols rows := by
  refine ⟨(paste_loop_dims _ _ _ _ _ _ _).1, (paste_loop_dims _ _ _ _ _ _ _).2, ?_⟩
  intro g hg
  rw [create_reference_grid] at hg
  split at hg
  · exact absurd hg (by simp)
  · simp only [Except.ok.injEq] at hg
    subst hg
    exact ⟨(paste_loop_dims _ _ _ _ _ _ _).1, (paste_loop_dims _ _ _ _ _ _ _).2⟩

theorem compose_dimensions_witness :
    (compose_grid idResize [Img.new 4 4 2] 2 2 512).width = 2 * 512 ∧
    (compose_grid idResize [Img.new 4 4 2] 2 2 512).height = 2 * 512 ∧
    ∃ g, create_reference_grid id idResize [Img.new 4 4 2] 2 2 1024 = .ok g ∧
      g.width = (1024 / max 2 2) * max 2 2 ∧
      g.height = (1024 / max 2 2) * max 2 2 := by
  obtain ⟨h1, h2, h3⟩ :=
    compose_dimensions id idResize [Img.new 4 4 2] 2 2 1024 512
  exact ⟨h1, h2, _, rfl, h3 _ rfl⟩

/-- C8 counterexample: neither time-mapper function validates `fps`: at
negative `fps` both succeed (`time_to_frame(2.5, -2) = -5`,
`frame_to_time(75, -1) = -75.0`), and `time_to_frame(1.0, 0)` returns `0`
rather than failing. -/
theorem time_mapper_no_rate_validation :
    time_to_frame (5 / 2 : ℚ) (-2) = -5 ∧
    frame_to_time 75 (-1) = .ok (-75) ∧
    time_to_frame 1 0 = 0 := by
  refine ⟨?_, ?_, ?_⟩
  · norm_num [time_to_frame, py_int]
  · rw [frame_to_time, if_neg (by norm_num)]
    norm_num
  · norm_num [time_to_frame, py_int]

/-- C8 (amended): the time mapper performs no `fps` validation.
`frame_to_time` returns `frameIndex / fps` for every `fps ≠ 0` (positive or
negative) and fails with `ZeroDivisionError` only at `fps = 0`;
`time_to_frame` never fails and returns `int(timestamp * fps)`, which
equals `⌊timestamp * fps⌋` whenever the product is non-negative. -/
theorem time_mapper_behaviour (t : ℚ) (f : Int) (fps : ℚ) :
    (fps ≠ 0 → frame_to_time f fps = .ok ((f : ℚ) / fps)) ∧
    frame_to_time f 0 = .error .zeroDivisionError ∧
    (0 ≤ t * fps → time_to_frame t fps = ⌊t * fps⌋) := by
  refine ⟨?_, ?_, ?_⟩
  · intro hfps
    rw [frame_to_time, if_neg hfps]
  · rw [frame_to_time, if_pos rfl]
  · intro hprod
    rw [time_to_frame]
    exact py_int_eq_floor _ hprod

theorem time_mapper_behaviour_witness :
    ((30 : ℚ) ≠ 0 ∧ frame_to_time 75 30 = .ok ((75 : ℚ) / 30)) ∧
    ((0 : ℚ) ≤ (5 / 2 : ℚ) * 30 ∧
      time_to_frame (5 / 2 : ℚ) 30 = ⌊(5 / 2 : ℚ) * 30⌋) := by
  obtain ⟨h1, _, h3⟩ := time_mapper_behaviour (5 / 2 : ℚ) 75 30
  exact ⟨⟨by norm_num, h1 (by norm_num)⟩, by norm_num, h3 (by norm_num)⟩

/-- The `break` guard makes the paste loop process at most
`cols * rows - k` frames: trailing frames are ignored. -/
theorem paste_loop_take (norm : Img → Img) (cols rows cell : Nat) :
    ∀ (l : List Img) (k : Nat) (g : Img),
      paste_loop norm cols rows cell k l g
        = paste_loop norm cols rows cell k (l.take (cols * rows - k)) g := by
  intro l
  induction l with
  | nil => intro k g; rw [List.take_nil]
  | cons a rest ih =>
    intro k g
    by_cases h : cols * rows ≤ k
    · rw [show cols * rows - k = 0 from by omega, List.take_zero]
      simp only [paste_loop]
      rw [if_pos h]
    · rw [show cols * rows - k = (cols * rows - (k + 1)) + 1 from by omega,
        List.take_succ_cons]
      simp only [paste_loop]
      rw [if_neg h, if_neg h]
      exact ih (k + 1) _

/-- C5 (and the spec's truncation clause): with more than `cols * rows`
frames, both composition modes return a result identical to composing
exactly the first `cols * rows` frames. -/
theorem compose_truncates_excess (convert : Img → Img)
    (resize : Img → Nat → Nat → Img) (frames : List Img)
    (cols rows resolution sprite_size : Nat)
    (hc : 1 ≤ cols) (hr : 1 ≤ rows)
    (hlen : cols * rows < frames.length) :
    compose_grid resize frames cols rows sprite_size
      = compose_grid resize (frames.take (cols * rows)) cols rows
          sprite_size ∧
    create_reference_grid convert resize frames cols rows resolution
      = create_reference_grid convert resize (frames.take (cols * rows))
          cols rows resolution := by
  have hmr : 1 ≤ cols * rows := Nat.one_le_iff_ne_zero.2 (by positivity)
  have htt : (frames.take (cols * rows)).take (cols * rows)
      = frames.take (cols * rows) := by
    rw [List.take_take, Nat.min_self]
  have h1 : frames.isEmpty = false := by
    cases frames with
    | nil => simp at hlen
    | cons a l => rfl
  have h2 : (frames.take (cols * rows)).isEmpty = false := by
    have hlt : (frames.take (cols * rows)).length = cols * rows := by
      rw [List.length_take]; omega
    cases hcons : frames.take (cols * rows) with
    | nil => rw [hcons] at hlt; simp at hlt; omega
    | cons a l => rfl
  constructor
  · rw [compose_grid, compose_grid, paste_loop_take, Nat.sub_zero]
  · rw [create_reference_grid, create_reference_grid]
    simp only [h1, h2, Bool.false_eq_true, if_false]
    rw [paste_loop_take, Nat.sub_zero]

theorem compose_truncates_excess_witness :
    (1 ≤ 1 ∧ 1 * 1 < ([Img.new 2 2 3, Img.new 5 5 4] : List Img).length) ∧
    compose_grid idResize [Img.new 2 2 3, Img.new 5 5 4] 1 1 4
      = compose_grid idResize
          (([Img.new 2 2 3, Img.new 5 5 4] : List Img).take (1 * 1)) 1 1 4 ∧
    create_reference_grid id idResize [Img.new 2 2 3, Img.new 5 5 4] 1 1 64
      = create_reference_grid id idResize
          (([Img.new 2 2 3, Img.new 5 5 4] : List Img).take (1 * 1)) 1 1 64 := by
  obtain ⟨h1, h2⟩ := compose_truncates_excess id idResize
    [Img.new 2 2 3, Img.new 5 5 4] 1 1 64 4 (by decide) (by decide) (by simp)
  exact ⟨⟨by decide, by simp⟩, h1, h2⟩

/-- A point inside the half-open band `[m*cell, m*cell + cell)` has cell
index `m`. -/
theorem cell_div_eq (cell m p : Nat) (h1 : m * cell ≤ p)
    (h2 : p < m * cell + cell) : p / cell = m :=
  Nat.div_eq_of_lt_le h1 (by rw [Nat.succ_mul]; exact h2)

/-- Pastes with loop indices strictly greater than `i` never touch the grid
cell of index `i`: the loop from index `k > i` leaves every pixel of cell
`i` unchanged. -/
theorem paste_loop_pix_of_lt (norm : Img → Img) (cols rows cell : Nat)
    (hnorm : ∀ f, (norm f).width = cell ∧ (norm f).height = cell)
    (i x y : Nat) (hig : i < cols * rows) (hx : x < cell) (hy : y < cell) :
    ∀ (l : List Img) (k : Nat) (g : Img), i < k →
      (paste_loop norm cols rows cell k l g).pix
          ((i % cols) * cell + x) ((i / cols) * cell + y)
        = g.pix ((i % cols) * cell + x) ((i / cols) * cell + y) := by
  intro l
  induction l with
  | nil => intro k g _; rfl
  | cons a rest ih =>
    intro k g hik
    rw [paste_loop]
    split
    · rfl
    · rw [ih (k + 1) _ (by omega)]
      show (g.paste (norm a) ((k % cols) * cell) ((k / cols) * cell)).pix
          ((i % cols) * cell + x) ((i / cols) * cell + y) = _
      rw [Img.paste]
      dsimp only
      split
      · rename_i hcond
        obtain ⟨hc1, hc2, hc3, hc4, _, _⟩ := hcond
        rw [(hnorm a).1] at hc2
        rw [(hnorm a).2] at hc4
        have e1 : ((i % cols) * cell + x) / cell = i % cols :=
          cell_div_eq cell (i % cols) _ (Nat.le_add_right _ _) (by omega)
        have e2 : ((i % cols) * cell + x) / cell = k % cols :=
          cell_div_eq cell (k % cols) _ hc1 hc2
        have e3 : ((i / cols) * cell + y) / cell = i / cols :=
          cell_div_eq cell (i / cols) _ (Nat.le_add_right _ _) (by omega)
        have e4 : ((i / cols) * cell + y) / cell = k / cols :=
          cell_div_eq cell (k / cols) _ hc3 hc4
        have ec : i % cols = k % cols := e1.symm.trans e2
        have er : i / cols = k / cols := e3.symm.trans e4
        have hdmi := Nat.div_add_mod i cols
        have hdmk := Nat.div_add_mod k cols
        rw [ec, er] at hdmi
        omega
      · rfl

/-- Closed form of the paste loop on a cell interior: after running the
loop from index `k` over `l`, the pixel `(x, y)` of grid cell `i` (for
`k ≤ i < k + |l|`, `i < cols*rows`) is pixel `(x, y)` of the normalised
frame `l[i - k]`.  Requires every normalised frame to be `cell × cell`
(PIL's resize contract) and the canvas to contain the whole grid. -/
theorem paste_loop_pix (norm : Img → Img) (cols rows cell : Nat)
    (hnorm : ∀ f, (norm f).width = cell ∧ (norm f).height = cell) :
    ∀ (l : List Img) (k : Nat) (g : Img),
      cols * cell ≤ g.width → rows * cell ≤ g.height →
      ∀ i, k ≤ i → i < k + l.length → i < cols * rows →
      ∀ x y, x < cell → y < cell →
      (paste_loop norm cols rows cell k l g).pix
          ((i % cols) * cell + x) ((i / cols) * cell + y)
        = (norm (l.getD (i - k) (Img.new 0 0 0))).pix x y := by
  intro l
  induction l with
  | nil =>
    intro k g _ _ i hik hil _ x y _ _
    simp only [List.length_nil, Nat.add_zero] at hil
    omega
  | cons a rest ih =>
    intro k g hgw hgh i hik hil hig x y hx hy
    have hkb : ¬ cols * rows ≤ k := by omega
    simp only [paste_loop]
    rw [if_neg hkb]
    have hcne : cols ≠ 0 := by
      intro hc
      rw [hc, Nat.zero_mul] at hig
      omega
    have hcols : 0 < cols := Nat.pos_of_ne_zero hcne
    by_cases hieq : i = k
    · subst hieq
      rw [paste_loop_pix_of_lt norm cols rows cell hnorm i x y hig hx hy
        rest (i + 1) _ (by omega)]
      rw [Nat.sub_self, List.getD_cons_zero]
      have hmodlt : i % cols < cols := Nat.mod_lt _ hcols
      have hdivlt : i / cols < rows := by
        rw [Nat.div_lt_iff_lt_mul hcols]
        exact Nat.lt_of_lt_of_le hig (Nat.le_of_eq (Nat.mul_comm cols rows))
      have hb1 : (i % cols + 1) * cell ≤ cols * cell :=
        Nat.mul_le_mul_right _ hmodlt
      have hb2 : (i / cols + 1) * cell ≤ rows * cell :=
        Nat.mul_le_mul_right _ hdivlt
      rw [Nat.succ_mul] at hb1 hb2
      rw [Img.paste]
      dsimp only
      rw [if_pos ⟨Nat.le_add_right _ _, by rw [(hnorm a).1]; omega,
        Nat.le_add_right _ _, by rw [(hnorm a).2]; omega,
        by omega, by omega⟩]
      rw [Nat.add_sub_cancel_left, Nat.add_sub_cancel_left]
    · have hil2 : i < (k + 1) + rest.length := by
        simp only [List.length_cons] at hil
        omega
      rw [ih (k + 1)
        (g.paste (norm a) ((k % cols) * cell) ((k / cols) * cell))
        hgw hgh i (by omega) hil2 hig x y hx hy]
      rw [show i - k = (i - (k + 1)) + 1 from by omega, List.getD_cons_succ]

/-- Indexing the nested row/column loop of `slice_grid`: element `i` of the
row-major flattening is the cell at row `i / cols`, column `i % cols`. -/
theorem range_flatMap_map_getD {α : Type} (cols : Nat) (f : Nat → Nat → α)
    (d : α) :
    ∀ (rows i : Nat), i < rows * cols →
      ((List.range rows).flatMap fun r => (List.range cols).map (f r)).getD
          i d
        = f (i / cols) (i % cols) := by
  intro rows
  induction rows with
  | zero =>
    intro i hi
    rw [Nat.zero_mul] at hi
    omega
  | succ n ihn =>
    intro i hi
    rw [List.range_succ, List.flatMap_append]
    have hlen : ((List.range n).flatMap fun r =>
        (List.range cols).map (f r)).length = n * cols :=
      length_range_flatMap_map n cols f
    by_cases h : i < n * cols
    · rw [List.getD_eq_getElem?_getD,
        List.getElem?_append_left (by rw [hlen]; exact h),
        ← List.getD_eq_getElem?_getD]
      exact ihn i h
    · rw [Nat.succ_mul] at hi
      have hcne : cols ≠ 0 := by
        intro hc
        rw [hc, Nat.mul_zero] at hi
        omega
      have hdiv : i / cols = n :=
        cell_div_eq cols n i (by omega) (by omega)
      have hmod : i % cols = i - n * cols := by
        have hdm := Nat.div_add_mod i cols
        rw [hdiv, Nat.mul_comm] at hdm
        omega
      rw [List.getD_eq_getElem?_getD,
        List.getElem?_append_right (by rw [hlen]; omega), hlen]
      simp only [List.flatMap_cons, List.flatMap_nil, List.append_nil]
      rw [List.getElem?_map, List.getElem?_range (by omega)]
      simp [hdiv, hmod]

/-- C1: slicing a sheet-mode composite with the same grid shape is the
inverse of composition.  For `cols, rows ≥ 1`, cell size `s ≥ 1` and
exactly `N = cols*rows` frames, `slice_grid (compose_grid frames) ` returns
`N` cells in row-major order; cell `i` is the `s × s` crop of the region
where input frame `i` was pasted, so its pixels are exactly those of the
resized input frame `i` — index-for-index. -/
theorem slice_compose_roundtrip (resize : Img → Nat → Nat → Img)
    (hres : ResizeSpec resize) (frames : List Img) (cols rows s : Nat)
    (hc : 1 ≤ cols) (hr : 1 ≤ rows) (hs : 1 ≤ s)
    (hlen : frames.length = cols * rows) :
    (slice_grid (compose_grid resize frames cols rows s) cols rows).length
      = cols * rows ∧
    ∀ i, i < cols * rows →
      ((slice_grid (compose_grid resize frames cols rows s) cols
          rows).getD i (Img.new 0 0 0)).width = s ∧
      ((slice_grid (compose_grid resize frames cols rows s) cols
          rows).getD i (Img.new 0 0 0)).height = s ∧
      ∀ x y, x < s → y < s →
        ((slice_grid (compose_grid resize frames cols rows s) cols
            rows).getD i (Img.new 0 0 0)).pix x y
          = (resize (frames.getD i (Img.new 0 0 0)) s s).pix x y := by
  have hCw : (compose_grid resize frames cols rows s).width = cols * s :=
    (paste_loop_dims _ _ _ _ _ _ _).1
  have hCh : (compose_grid resize frames cols rows s).height = rows * s :=
    (paste_loop_dims _ _ _ _ _ _ _).2
  have hcw : (compose_grid resize frames cols rows s).width / cols = s := by
    rw [hCw, Nat.mul_div_cancel_left _ (by omega : 0 < cols)]
  have hch : (compose_grid resize frames cols rows s).height / rows = s := by
    rw [hCh, Nat.mul_div_cancel_left _ (by omega : 0 < rows)]
  simp only [slice_grid]
  rw [hcw, hch]
  constructor
  · exact (length_range_flatMap_map rows cols _).trans (Nat.mul_comm rows cols)
  · intro i hi
    have hi2 : i < rows * cols := by rw [Nat.mul_comm rows cols]; exact hi
    rw [range_flatMap_map_getD cols _ (Img.new 0 0 0) rows i hi2]
    refine ⟨by simp [Img.crop], by simp [Img.crop], ?_⟩
    intro x y hx hy
    have hmodlt : i % cols < cols := Nat.mod_lt _ (by omega)
    have hdivlt : i / cols < rows := by
      rw [Nat.div_lt_iff_lt_mul (by omega : 0 < cols)]
      exact hi2
    have hb1 : (i % cols + 1) * s ≤ cols * s := Nat.mul_le_mul_right _ hmodlt
    have hb2 : (i / cols + 1) * s ≤ rows * s := Nat.mul_le_mul_right _ hdivlt
    rw [Nat.succ_mul] at hb1 hb2
    rw [Img.crop]
    dsimp only
    rw [if_pos ⟨by rw [hCw]; omega, by rw [hCh]; omega, by omega, by omega⟩]
    show (paste_loop (fun f => resize f s s) cols rows s 0 frames
        (Img.new (cols * s) (rows * s) 0)).pix
        ((i % cols) * s + x) ((i / cols) * s + y) = _
    rw [paste_loop_pix (fun f => resize f s s) cols rows s
      (fun f => hres f s s) frames 0 (Img.new (cols * s) (rows * s) 0)
      (Nat.le_refl _) (Nat.le_refl _) i (Nat.zero_le i)
      (by simpa [hlen] using hi) hi x y hx hy]
    rw [Nat.sub_zero]

theorem slice_compose_roundtrip_witness :
    (slice_grid (compose_grid idResize [Img.new 1 1 5, Img.new 1 1 7] 2 1 1)
        2 1).length = 2 * 1 ∧
    ((slice_grid (compose_grid idResize [Img.new 1 1 5, Img.new 1 1 7] 2 1 1)
        2 1).getD 1 (Img.new 0 0 0)).pix 0 0
      = (idResize (([Img.new 1 1 5, Img.new 1 1 7] : List Img).getD 1
          (Img.new 0 0 0)) 1 1).pix 0 0 := by
  obtain ⟨h1, h2⟩ := slice_compose_roundtrip idResize idResize_spec
    [Img.new 1 1 5, Img.new 1 1 7] 2 1 1 (by decide) (by decide) (by decide)
    (by simp)
  exact ⟨h1, (h2 1 (by decide)).2.2 0 0 (by decide) (by decide)⟩
